import Mathlib

/-!
Verification of the `ip_whois_tool` lookup-orchestration core.

This file gives a shallow embedding, in Lean 4, of the core of the
`whois_tool` Python package: the merge strategy (`util.merge_whois_results`),
the engine's per-identity lookup and batch scheduler (`engine.WhoisEngine`),
the resolver retry loop (`resolvers/base.BaseResolver.lookup`), the system
WHOIS text parser (`resolvers/system_resolver.SystemWhoisResolver`), and the
disk cache (`cache.CacheManager`).  Python dictionaries are modelled as
ordered association lists over a small value type `PyVal`; exceptions are
modelled with `Except`/`Option`; I/O effects (filesystem, subprocess,
network) are explicit parameters or oracles.
-/

namespace WhoisTool

/-- A Python value, as far as the whois tool's record shapes need:
`None`, strings, numbers, dicts and lists. -/
inductive PyVal : Type where
  | none : PyVal
  | str : String → PyVal
  | int : Int → PyVal
  | dict : List (String × PyVal) → PyVal
  | list : List PyVal → PyVal

/-- A Python dict with string keys, in insertion order (a `WhoisResult`). -/
abbrev PyDict := List (String × PyVal)

/-- Python truthiness for the values of `PyVal`. -/
def PyVal.truthy : PyVal → Bool
  | PyVal.none => false
  | PyVal.str s => !s.isEmpty
  | PyVal.int n => n != 0
  | PyVal.dict l => !l.isEmpty
  | PyVal.list l => !l.isEmpty

/-- `d.get(k)`: first binding of key `k`, if any (dict keys are unique in
Python; on association lists we take the first). -/
def dget (d : PyDict) (k : String) : Option PyVal :=
  match d with
  | [] => Option.none
  | (k', v) :: rest => if k' = k then some v else dget rest k

/-- `d[k] = v`: replace the first binding of `k`, else append a new one. -/
def dset (d : PyDict) (k : String) (v : PyVal) : PyDict :=
  match d with
  | [] => [(k, v)]
  | (k', v') :: rest => if k' = k then (k', v) :: rest else (k', v') :: dset rest k v

/-- `merged.get(key) is None`: key absent, or bound to Python `None`. -/
def isNoneVal : Option PyVal → Bool
  | Option.none => true
  | some PyVal.none => true
  | some _ => false

/-- `merged.get(key) == ''`: bound to the empty string. -/
def isEmptyStrVal : Option PyVal → Bool
  | some (PyVal.str s) => s.isEmpty
  | _ => false

/-- `result.get('source', 'unknown')` from `merge_whois_results`. -/
def sourceLabel (r : PyDict) : PyVal :=
  match dget r "source" with
  | some v => v
  | Option.none => PyVal.str "unknown"

/-- View a `PyVal` as a string (`', '.join` requires actual strings and
raises `TypeError` otherwise, which we model as `Option.none`). -/
def asStr : PyVal → Option String
  | PyVal.str s => some s
  | _ => Option.none

/-- The inner `for key, value in result.items()` loop of
`merge_whois_results`: merge one later record into the accumulator. -/
def mergeStep (m : PyDict) (r : PyDict) : PyDict :=
  r.foldl (fun m kv =>
    if kv.1 = "source" ∨ kv.1 = "raw" then m
    else if isNoneVal (dget m kv.1) || (isEmptyStrVal (dget m kv.1) && kv.2.truthy) then
      dset m kv.1 kv.2
    else m) m

/-- `util.merge_whois_results`: base = first record; later records fill
fields that are `None`/absent or empty; `source` becomes the `', '`-join of
every record's source label; `raw` is never touched.  Returns `Option.none`
exactly when Python would raise (`', '.join` over a non-string label). -/
def merge_whois_results (results : List PyDict) : Option PyDict :=
  match results with
  | [] => some []
  | base :: rest =>
    let sources := sourceLabel base :: rest.map sourceLabel
    let merged := rest.foldl mergeStep base
    match sources.mapM asStr with
    | some strs => some (dset merged "source" (PyVal.str (String.intercalate ", " strs)))
    | Option.none => Option.none

/-! ### Dictionary lemmas -/

theorem dget_dset (d : PyDict) (k k' : String) (v : PyVal) :
    dget (dset d k v) k' = if k = k' then some v else dget d k' := by
  induction d with
  | nil =>
    simp only [dset, dget]
  | cons kv rest ih =>
    obtain ⟨k₀, v₀⟩ := kv
    by_cases h₀ : k₀ = k
    · subst h₀
      by_cases h₁ : k₀ = k'
      · subst h₁
        simp [dset, dget]
      · simp [dset, dget, h₁]
    · by_cases h₁ : k₀ = k'
      · subst h₁
        have : k ≠ k₀ := fun h => h₀ h.symm
        simp [dset, dget, h₀, this]
      · simp [dset, dget, h₀, h₁, ih]

/-- The rule `merge_whois_results` applies at one key for one later value:
adopt the later value iff the current one is `None`/absent, or is the empty
string while the later value is truthy. -/
def adoptRule (cur : Option PyVal) (v : Option PyVal) : Option PyVal :=
  match v with
  | Option.none => cur
  | some v =>
    if isNoneVal cur || (isEmptyStrVal cur && v.truthy) then some v else cur

theorem dget_mergeStep_notmem (t : PyDict) (m : PyDict) (k : String)
    (h : k ∉ t.map Prod.fst) : dget (mergeStep m t) k = dget m k := by
  induction t generalizing m with
  | nil => rfl
  | cons kv rest ih =>
    obtain ⟨k₀, v₀⟩ := kv
    simp only [List.map_cons, List.mem_cons, not_or] at h
    obtain ⟨hk₀, hrest⟩ := h
    show dget (List.foldl _ _ rest) k = dget m k
    by_cases hsr : k₀ = "source" ∨ k₀ = "raw"
    · simpa [mergeStep, hsr] using ih _ hrest
    · by_cases hc : isNoneVal (dget m k₀) || (isEmptyStrVal (dget m k₀) && v₀.truthy)
      · have heq : dget (dset m k₀ v₀) k = dget m k := by
          rw [dget_dset]
          simp [Ne.symm hk₀]
        simpa [mergeStep, hsr, hc, heq] using (ih (dset m k₀ v₀) hrest).trans heq
      · simpa [mergeStep, hsr, hc] using ih m hrest

theorem dget_mergeStep (t : PyDict) (m : PyDict) (k : String)
    (hk₁ : k ≠ "source") (hk₂ : k ≠ "raw") (hnd : (t.map Prod.fst).Nodup) :
    dget (mergeStep m t) k = adoptRule (dget m k) (dget t k) := by
  induction t generalizing m with
  | nil => rfl
  | cons kv rest ih =>
    obtain ⟨k₀, v₀⟩ := kv
    simp only [List.map_cons, List.nodup_cons] at hnd
    obtain ⟨hk₀rest, hndrest⟩ := hnd
    show dget (List.foldl _ _ rest) k = _
    by_cases hk₀ : k₀ = k
    · subst hk₀
      have hsr : ¬ (k₀ = "source" ∨ k₀ = "raw") := by
        push_neg
        exact ⟨hk₁, hk₂⟩
      by_cases hc : isNoneVal (dget m k₀) || (isEmptyStrVal (dget m k₀) && v₀.truthy)
      · have hstep : dget (mergeStep (dset m k₀ v₀) rest) k₀ = dget (dset m k₀ v₀) k₀ :=
          dget_mergeStep_notmem rest _ k₀ hk₀rest
        have hv : dget (dset m k₀ v₀) k₀ = some v₀ := by
          rw [dget_dset]
          simp
        simp [mergeStep, hsr, hc, dget, adoptRule] at hstep ⊢
        rw [hstep, hv]
      · have hstep : dget (mergeStep m rest) k₀ = dget m k₀ :=
          dget_mergeStep_notmem rest _ k₀ hk₀rest
        simp [mergeStep, hsr, hc, dget, adoptRule] at hstep ⊢
        rw [hstep]
    · have hget : dget ((k₀, v₀) :: rest) k = dget rest k := by
        simp [dget, hk₀]
      rw [hget]
      by_cases hsr : k₀ = "source" ∨ k₀ = "raw"
      · simpa [mergeStep, hsr] using ih m hndrest
      · by_cases hc : isNoneVal (dget m k₀) || (isEmptyStrVal (dget m k₀) && v₀.truthy)
        · have heq : dget (dset m k₀ v₀) k = dget m k := by
            rw [dget_dset]
            simp [hk₀]
          have := ih (dset m k₀ v₀) hndrest
          rw [heq] at this
          simpa [mergeStep, hsr, hc] using this
        · simpa [mergeStep, hsr, hc] using ih m hndrest

theorem dget_mergeStep_protected (t : PyDict) (m : PyDict) (k : String)
    (hk : k = "source" ∨ k = "raw") : dget (mergeStep m t) k = dget m k := by
  induction t generalizing m with
  | nil => rfl
  | cons kv rest ih =>
    obtain ⟨k₀, v₀⟩ := kv
    show dget (List.foldl _ _ rest) k = dget m k
    by_cases hsr : k₀ = "source" ∨ k₀ = "raw"
    · simpa [mergeStep, hsr] using ih m
    · by_cases hc : isNoneVal (dget m k₀) || (isEmptyStrVal (dget m k₀) && v₀.truthy)
      · have hne : k₀ ≠ k := by
          rcases hk with hk | hk <;> subst hk <;> push_neg at hsr <;> simp [hsr]
        have heq : dget (dset m k₀ v₀) k = dget m k := by
          rw [dget_dset]
          simp [hne]
        simpa [mergeStep, hsr, hc] using (ih (dset m k₀ v₀)).trans heq
      · simpa [mergeStep, hsr, hc] using ih m

theorem dget_foldl_mergeStep (rs : List PyDict) (m : PyDict) (k : String)
    (hk₁ : k ≠ "source") (hk₂ : k ≠ "raw")
    (hnd : ∀ t ∈ rs, (t.map Prod.fst).Nodup) :
    dget (rs.foldl mergeStep m) k = rs.foldl (fun cur t => adoptRule cur (dget t k)) (dget m k) := by
  induction rs generalizing m with
  | nil => rfl
  | cons t rest ih =>
    have hndt : (t.map Prod.fst).Nodup := hnd t (List.mem_cons_self t rest)
    have hndrest : ∀ t' ∈ rest, (t'.map Prod.fst).Nodup := fun t' ht' =>
      hnd t' (List.mem_cons_of_mem t ht')
    simp only [List.foldl_cons]
    rw [ih (mergeStep m t) hndrest, dget_mergeStep t m k hk₁ hk₂ hndt]

theorem dget_foldl_mergeStep_protected (rs : List PyDict) (m : PyDict) (k : String)
    (hk : k = "source" ∨ k = "raw") :
    dget (rs.foldl mergeStep m) k = dget m k := by
  induction rs generalizing m with
  | nil => rfl
  | cons t rest ih =>
    simp only [List.foldl_cons]
    rw [ih (mergeStep m t), dget_mergeStep_protected t m k hk]

theorem merge_whois_results_cons (base : PyDict) (rest : List PyDict) (strs : List String)
    (h : (sourceLabel base :: rest.map sourceLabel).mapM asStr = some strs) :
    merge_whois_results (base :: rest) =
      some (dset (rest.foldl mergeStep base) "source"
        (PyVal.str (String.intercalate ", " strs))) := by
  simp only [merge_whois_results]
  rw [h]

/-! ### Claims about the merge strategy -/

/-- **C5.** For a non-empty list of records (with well-formed dict keys and
string source labels): the merge keeps the first record as base and, at
every key other than `source` and `raw`, folds in later records by the
adopt-only-if-absent-or-empty rule (earlier records win ties); the merged
`source` is the `", "`-join of all source labels in order; the merged `raw`
is the base record's `raw`. -/
theorem claim_C5_merge_spec (r : PyDict) (rs : List PyDict) (strs : List String)
    (hnd : ∀ t ∈ rs, (t.map Prod.fst).Nodup)
    (hsrc : (List.map sourceLabel (r :: rs)).mapM asStr = some strs) :
    ∃ merged, merge_whois_results (r :: rs) = some merged ∧
      (∀ k, k ≠ "source" → k ≠ "raw" →
        dget merged k = rs.foldl (fun cur t => adoptRule cur (dget t k)) (dget r k)) ∧
      dget merged "source" = some (PyVal.str (String.intercalate ", " strs)) ∧
      dget merged "raw" = dget r "raw" := by
  refine ⟨dset (rs.foldl mergeStep r) "source"
      (PyVal.str (String.intercalate ", " strs)), ?_, ?_, ?_, ?_⟩
  · exact merge_whois_results_cons r rs strs hsrc
  · intro k hk₁ hk₂
    rw [dget_dset]
    simp only [if_neg (show ¬ ("source" = k) from fun h => hk₁ h.symm)]
    exact dget_foldl_mergeStep rs r k hk₁ hk₂ hnd
  · rw [dget_dset]
    simp
  · rw [dget_dset]
    simp only [if_neg (by decide : ¬ ("source" : String) = "raw")]
    exact dget_foldl_mergeStep_protected rs r "raw" (Or.inr rfl)

/-- Witness for C5 at concrete records
`A = {source: "a", organization: "OrgA", country: "", raw: 1}` and
`B = {source: "b", organization: "OrgB", country: "US", city: "X"}`:
A's organization survives, B fills the empty country and the absent city,
source is `"a, b"`, raw stays A's. -/
theorem claim_C5_merge_spec_witness :
    ∃ merged,
      merge_whois_results
        [[("source", PyVal.str "a"), ("organization", PyVal.str "OrgA"),
          ("country", PyVal.str ""), ("raw", PyVal.int 1)],
         [("source", PyVal.str "b"), ("organization", PyVal.str "OrgB"),
          ("country", PyVal.str "US"), ("city", PyVal.str "X")]] = some merged ∧
      dget merged "organization" = some (PyVal.str "OrgA") ∧
      dget merged "country" = some (PyVal.str "US") ∧
      dget merged "city" = some (PyVal.str "X") ∧
      dget merged "source" = some (PyVal.str "a, b") ∧
      dget merged "raw" = some (PyVal.int 1) := by
  obtain ⟨merged, hm, hfield, hsrc, hraw⟩ :=
    claim_C5_merge_spec
      [("source", PyVal.str "a"), ("organization", PyVal.str "OrgA"),
       ("country", PyVal.str ""), ("raw", PyVal.int 1)]
      [[("source", PyVal.str "b"), ("organization", PyVal.str "OrgB"),
        ("country", PyVal.str "US"), ("city", PyVal.str "X")]]
      ["a", "b"]
      (by
        intro t ht
        simp only [List.mem_singleton] at ht
        subst ht
        decide)
      (by rfl)
  refine ⟨merged, hm, ?_, ?_, ?_, ?_, ?_⟩
  · rw [hfield "organization" (by decide) (by decide)]
    rfl
  · rw [hfield "country" (by decide) (by decide)]
    rfl
  · rw [hfield "city" (by decide) (by decide)]
    rfl
  · simpa using hsrc
  · rw [hraw]
    rfl

/-- **C10.** `merge_whois_results` applied to the empty list returns the
empty record, totally and without raising. -/
theorem claim_C10_merge_empty : merge_whois_results [] = some [] := rfl

/-! ### The engine: `WhoisEngine.lookup_ip` and `WhoisEngine.process_ips`

Resolver lookups perform network/subprocess I/O, so their outcome for the
one identity under consideration is abstracted as an environment
`ResolverId → Except String PyDict` (`Except.error` models the `ValueError`
that `BaseResolver.lookup` raises on failure, which is all
`WhoisEngine.lookup_ip` catches). -/

/-- The three resolver variants of `resolvers/__init__.py`, a fixed set. -/
inductive ResolverId : Type where
  | ipwhois : ResolverId
  | pythonwhois : ResolverId
  | system : ResolverId
deriving DecidableEq

/-- `resolver.name` for each variant. -/
def resolverName : ResolverId → String
  | ResolverId.ipwhois => "IPWhoisResolver"
  | ResolverId.pythonwhois => "PythonWhoisResolver"
  | ResolverId.system => "SystemWhoisResolver"

/-- `get_resolver_by_method` returns a single resolver, or a list in `auto`
mode (the engine later wraps a single resolver into a list). -/
inductive ResolverChoice : Type where
  | one : ResolverId → ResolverChoice
  | many : List ResolverId → ResolverChoice

/-- `resolvers.get_resolver_by_method`: `auto` expands to the fixed priority
order `[IPWhoisResolver, PythonWhoisResolver, SystemWhoisResolver]`; a
specific method selects exactly one resolver; anything else raises. -/
def get_resolver_by_method (method : String) : Except String ResolverChoice :=
  if method = "auto" then
    Except.ok (ResolverChoice.many [ResolverId.ipwhois, ResolverId.pythonwhois, ResolverId.system])
  else if method = "ipwhois" then Except.ok (ResolverChoice.one ResolverId.ipwhois)
  else if method = "pythonwhois" then Except.ok (ResolverChoice.one ResolverId.pythonwhois)
  else if method = "system" then Except.ok (ResolverChoice.one ResolverId.system)
  else Except.error ("Invalid lookup method '" ++ method ++
    "'. Available methods: auto, ipwhois, pythonwhois, system")

/-- `if not isinstance(resolvers, list): resolvers = [resolvers]`. -/
def ResolverChoice.toList : ResolverChoice → List ResolverId
  | ResolverChoice.one r => [r]
  | ResolverChoice.many rs => rs

/-- Outcome of `resolver.lookup(ip, timeout, max_retries)` for the identity
being looked up, per resolver. -/
abbrev ResolverEnv := ResolverId → Except String PyDict

/-- The `for resolver in resolvers` loop of `WhoisEngine.lookup_ip`:
accumulate `results` and `errors`; in non-`auto` mode break after the first
success and re-raise (with resolver-name context) the first failure.
Also returns the invocation trace. -/
def tryResolvers (env : ResolverEnv) (method : String) :
    List ResolverId → List PyDict → List String →
    Except String (List PyDict × List String) × List ResolverId
  | [], results, errors => (Except.ok (results, errors), [])
  | r :: rest, results, errors =>
    match env r with
    | Except.ok res =>
      if method ≠ "auto" then (Except.ok (results ++ [res], errors), [r])
      else
        let next := tryResolvers env method rest (results ++ [res]) errors
        (next.1, r :: next.2)
    | Except.error e =>
      if method ≠ "auto" then
        (Except.error ("Lookup with " ++ resolverName r ++ " failed: " ++ e), [r])
      else
        let next := tryResolvers env method rest results (errors ++ [e])
        (next.1, r :: next.2)

/-- `if cached:` — the cached value must be present and truthy (a non-empty
dict) to be returned. -/
def cachedTruthy : Option PyDict → Bool
  | some c => !c.isEmpty
  | Option.none => false

/-- Return value and resolver-invocation trace of one `lookup_ip` call. -/
structure LookupOut where
  result : Option (Except String PyDict)
  tried : List ResolverId

/-- `WhoisEngine.lookup_ip`: cache check, resolver loop, all-methods-failed
check, merge (when more than one result), then return.  `result = some (.ok r)`
is a normal return, `some (.error e)` a raised `ValueError`, and the outer
`Option.none` an uncaught non-`ValueError` crash (the `', '.join` `TypeError`
inside `merge_whois_results`).  The trailing `cache.set` call only mutates
the cache state and never changes the returned record; it is modelled
separately (`CacheManager.set` below). -/
def lookup_ip (env : ResolverEnv) (method : String) (ip : String)
    (use_cache : Bool) (cached : Option PyDict) : LookupOut :=
  if use_cache && cachedTruthy cached then
    { result := some (Except.ok (cached.getD [])), tried := [] }
  else
    match get_resolver_by_method method with
    | Except.error e => { result := some (Except.error e), tried := [] }
    | Except.ok choice =>
      match tryResolvers env method choice.toList [] [] with
      | (Except.error e, tr) => { result := some (Except.error e), tried := tr }
      | (Except.ok (results, _errors), tr) =>
        { result :=
            if results.isEmpty then
              some (Except.error ("All lookup methods failed for " ++ ip))
            else if results.length > 1 then
              match merge_whois_results results with
              | some m => some (Except.ok m)
              | Option.none => Option.none
            else some (Except.ok results.headI),
          tried := tr }

/-- The successful results the `auto`-mode loop accumulates, in priority
order. -/
def autoSuccesses (env : ResolverEnv) : List PyDict :=
  [ResolverId.ipwhois, ResolverId.pythonwhois, ResolverId.system].filterMap
    (fun r => (env r).toOption)

/-- **C3.** In `auto` mode, for every resolver environment, the engine
invokes the three resolvers strictly in the fixed priority order
`[IPWhoisResolver, PythonWhoisResolver, SystemWhoisResolver]` — continuing
past successes — and whenever more than one resolver succeeds, the returned
record is the merge of all accumulated successful results. -/
theorem claim_C3_auto_accumulate (env : ResolverEnv) (ip : String) :
    (lookup_ip env "auto" ip false Option.none).tried =
      [ResolverId.ipwhois, ResolverId.pythonwhois, ResolverId.system] ∧
    (∀ m, 2 ≤ (autoSuccesses env).length →
      merge_whois_results (autoSuccesses env) = some m →
      (lookup_ip env "auto" ip false Option.none).result = some (Except.ok m)) := by
  rcases h1 : env ResolverId.ipwhois with e1 | a1 <;>
    rcases h2 : env ResolverId.pythonwhois with e2 | a2 <;>
      rcases h3 : env ResolverId.system with e3 | a3 <;>
        refine ⟨by simp [lookup_ip, get_resolver_by_method, ResolverChoice.toList,
          tryResolvers, h1, h2, h3], ?_⟩ <;>
        intro m hlen hm <;>
        simp only [autoSuccesses, List.filterMap_cons, List.filterMap_nil, h1, h2, h3,
          Except.toOption, List.length_cons, List.length_nil] at hlen hm <;>
        first
          | exact absurd hlen (by omega)
          | simp [lookup_ip, get_resolver_by_method, ResolverChoice.toList,
              tryResolvers, h1, h2, h3, hm]

/-- A resolver environment where both the primary and the system resolver
succeed; used to witness C3. -/
def envTwoOk : ResolverEnv
  | ResolverId.ipwhois =>
    Except.ok [("source", PyVal.str "IPWhoisResolver"), ("organization", PyVal.str "OrgI")]
  | ResolverId.pythonwhois => Except.error "nope"
  | ResolverId.system =>
    Except.ok [("source", PyVal.str "SystemWhoisResolver"), ("country", PyVal.str "US")]

/-- Witness for C3: with resolvers 1 and 3 succeeding, all three are tried
in order and the returned record is the merge of both successes. -/
theorem claim_C3_auto_accumulate_witness :
    (lookup_ip envTwoOk "auto" "8.8.8.8" false Option.none).tried =
      [ResolverId.ipwhois, ResolverId.pythonwhois, ResolverId.system] ∧
    (lookup_ip envTwoOk "auto" "8.8.8.8" false Option.none).result =
      some (Except.ok
        [("source", PyVal.str "IPWhoisResolver, SystemWhoisResolver"),
         ("organization", PyVal.str "OrgI"),
         ("country", PyVal.str "US")]) := by
  obtain ⟨ht, hres⟩ := claim_C3_auto_accumulate envTwoOk "8.8.8.8"
  exact ⟨ht, hres _ (by decide) rfl⟩

/-- A resolver environment where every resolver fails, with distinct
messages; used for C2. -/
def envAllFail : ResolverEnv
  | ResolverId.ipwhois => Except.error "boom1"
  | ResolverId.pythonwhois => Except.error "boom2"
  | ResolverId.system => Except.error "boom3"

/-- `sub` occurs as a contiguous substring of `hay`. -/
def strContains (hay sub : String) : Bool :=
  (List.range (hay.toList.length + 1)).any
    (fun i => sub.toList.isPrefixOf (hay.toList.drop i))

/-- **C2, counterexample.** With every resolver failing (reasons `boom1`,
`boom2`, `boom3`), the raised error's message is exactly
`"All lookup methods failed for 1.2.3.4"`: none of the collected failure
reasons appears in it (the joined reasons go only to the log), refuting the
claim that the raised message joins every collected failure reason. -/
theorem claim_C2_counterexample :
    (lookup_ip envAllFail "auto" "1.2.3.4" false Option.none).result =
      some (Except.error "All lookup methods failed for 1.2.3.4") ∧
    strContains "All lookup methods failed for 1.2.3.4" "boom1" = false ∧
    strContains "All lookup methods failed for 1.2.3.4" "boom2" = false ∧
    strContains "All lookup methods failed for 1.2.3.4" "boom3" = false := by
  refine ⟨rfl, by decide, by decide, by decide⟩

/-- **C2, amended.** When every resolver in the `auto` set fails, the engine
raises an all-methods-failed error whose message is exactly
`"All lookup methods failed for " ++ ip`; the collected failure reasons are
joined only into the log line, not into the raised message. -/
theorem claim_C2_amended_allfail (env : ResolverEnv) (ip : String)
    (err : ResolverId → String) (h : ∀ r, env r = Except.error (err r)) :
    (lookup_ip env "auto" ip false Option.none).result =
      some (Except.error ("All lookup methods failed for " ++ ip)) := by
  simp [lookup_ip, get_resolver_by_method, ResolverChoice.toList, tryResolvers,
    h ResolverId.ipwhois, h ResolverId.pythonwhois, h ResolverId.system]

/-- Witness for the amended C2 at the concrete all-failing environment. -/
theorem claim_C2_amended_allfail_witness :
    (lookup_ip envAllFail "auto" "1.2.3.4" false Option.none).result =
      some (Except.error ("All lookup methods failed for " ++ "1.2.3.4")) :=
  claim_C2_amended_allfail envAllFail "1.2.3.4"
    (fun r => match r with
      | ResolverId.ipwhois => "boom1"
      | ResolverId.pythonwhois => "boom2"
      | ResolverId.system => "boom3")
    (fun r => by cases r <;> rfl)

/-! ### The batch scheduler: `WhoisEngine.process_ips`

The per-identity lookup is abstracted as `lookupFn : String → Except String
PyDict` (the outcome, for each identity, of `self.lookup_ip`; `process_ips`
catches every exception and stores its string).  IP-string validity
(`util.is_valid_ip`, a thin wrapper over Python's `ipaddress` stdlib) is an
oracle `validIp`.  Thread-pool completion order in parallel mode is a
scheduling parameter `completionOrder`, constrained in theorems to be a
permutation of the valid identities. -/

/-- `util.filter_valid_ips`: keep only the identities the validator accepts. -/
def filter_valid_ips (validIp : String → Bool) (ips : List String) : List String :=
  ips.filter validIp

/-- One iteration of the batch loop: append the record on success, append
the `(ip, error)` pair to the local error list on failure. -/
def batchStep (lookupFn : String → Except String PyDict)
    (acc : List PyDict × List (String × String)) (ip : String) :
    List PyDict × List (String × String) :=
  match lookupFn ip with
  | Except.ok r => (acc.1 ++ [r], acc.2)
  | Except.error e => (acc.1, acc.2 ++ [(ip, e)])

/-- The `results`/`errors` pair `process_ips` accumulates internally while
processing identities in the given order. -/
def processAccum (lookupFn : String → Except String PyDict)
    (ips : List String) : List PyDict × List (String × String) :=
  ips.foldl (batchStep lookupFn) ([], [])

/-- `WhoisEngine.process_ips`: filter to valid identities, return `[]` when
none remain, otherwise process them — in thread-pool completion order
`completionOrder` when `parallel` and more than one identity, else
sequentially in input order — and return ONLY the accumulated successful
records.  The `(ip, error)` failure list is a local variable used for
logging and is not part of the return value. -/
def process_ips (validIp : String → Bool) (lookupFn : String → Except String PyDict)
    (ips : List String) (parallel : Bool) (completionOrder : List String) : List PyDict :=
  let valid := filter_valid_ips validIp ips
  if valid.isEmpty then []
  else if parallel && valid.length > 1 then (processAccum lookupFn completionOrder).1
  else (processAccum lookupFn valid).1

theorem foldl_batchStep (lookupFn : String → Except String PyDict)
    (ips : List String) (rs : List PyDict) (es : List (String × String)) :
    ips.foldl (batchStep lookupFn) (rs, es) =
      (rs ++ ips.filterMap (fun ip => (lookupFn ip).toOption),
       es ++ ips.filterMap (fun ip =>
         match lookupFn ip with
         | Except.error e => some (ip, e)
         | Except.ok _ => Option.none)) := by
  induction ips generalizing rs es with
  | nil => simp
  | cons ip rest ih =>
    cases h : lookupFn ip with
    | ok r => simp [batchStep, h, ih, Except.toOption]
    | error e => simp [batchStep, h, ih, Except.toOption]

theorem processAccum_spec (lookupFn : String → Except String PyDict)
    (ips : List String) :
    processAccum lookupFn ips =
      (ips.filterMap (fun ip => (lookupFn ip).toOption),
       ips.filterMap (fun ip =>
         match lookupFn ip with
         | Except.error e => some (ip, e)
         | Except.ok _ => Option.none)) := by
  simpa using foldl_batchStep lookupFn ips [] []

/-- The stubbed per-identity lookup used for C1: B's lookup always fails,
A's and C's succeed with fixed records. -/
def lookupC1 (ip : String) : Except String PyDict :=
  if ip = "1.1.1.1" then Except.ok [("ip", PyVal.str "1.1.1.1")]
  else if ip = "2.2.2.2" then Except.error "boom"
  else Except.ok [("ip", PyVal.str "3.3.3.3")]

/-- **C1, counterexample.** For `[A, B, C]` with B's lookup failing,
`process_ips` returns exactly the list of successful records for A and C —
a bare record list; the accumulated `(identity, error)` pair for B exists
only in the internal accumulator and is not part of the returned outcome,
refuting the claim that the operation returns the failure list as well. -/
theorem claim_C1_counterexample :
    process_ips (fun _ => true) lookupC1 ["1.1.1.1", "2.2.2.2", "3.3.3.3"] false [] =
      [[("ip", PyVal.str "1.1.1.1")], [("ip", PyVal.str "3.3.3.3")]] ∧
    (processAccum lookupC1 ["1.1.1.1", "2.2.2.2", "3.3.3.3"]).2 =
      [("2.2.2.2", "boom")] := by
  exact ⟨rfl, rfl⟩

/-- **C1, amended.** For `[A, B, C]` with B's lookup always failing and A's
and C's succeeding: in sequential mode `process_ips` returns the successful
records `[ra, rc]` in input order, in parallel mode it returns them in
completion order (a permutation of `[ra, rc]`), and in both modes the
internal error accumulator holds exactly the one pair `(B, e)`  — but that
pair is only logged, not returned. -/
theorem claim_C1_amended_batch (validIp : String → Bool)
    (lookupFn : String → Except String PyDict)
    (A B C : String) (ra rc : PyDict) (e : String) (completionOrder : List String)
    (hA : validIp A = true) (hB : validIp B = true) (hC : validIp C = true)
    (hfa : lookupFn A = Except.ok ra) (hfb : lookupFn B = Except.error e)
    (hfc : lookupFn C = Except.ok rc)
    (hperm : completionOrder.Perm [A, B, C]) :
    process_ips validIp lookupFn [A, B, C] false completionOrder = [ra, rc] ∧
    (processAccum lookupFn [A, B, C]).2 = [(B, e)] ∧
    (process_ips validIp lookupFn [A, B, C] true completionOrder).Perm [ra, rc] ∧
    (processAccum lookupFn completionOrder).2 = [(B, e)] := by
  have hvalid : filter_valid_ips validIp [A, B, C] = [A, B, C] := by
    simp [filter_valid_ips, hA, hB, hC]
  have hseq := processAccum_spec lookupFn [A, B, C]
  have hpar := processAccum_spec lookupFn completionOrder
  have hfstperm :
      (completionOrder.filterMap (fun ip => (lookupFn ip).toOption)).Perm
        ([A, B, C].filterMap (fun ip => (lookupFn ip).toOption)) :=
    hperm.filterMap _
  have hsndperm :
      (completionOrder.filterMap (fun ip =>
        match lookupFn ip with
        | Except.error e => some (ip, e)
        | Except.ok _ => Option.none)).Perm
      ([A, B, C].filterMap (fun ip =>
        match lookupFn ip with
        | Except.error e => some (ip, e)
        | Except.ok _ => Option.none)) :=
    hperm.filterMap _
  have hseqfst : [A, B, C].filterMap (fun ip => (lookupFn ip).toOption) = [ra, rc] := by
    simp [List.filterMap_cons, hfa, hfb, hfc, Except.toOption]
  have hseqsnd : [A, B, C].filterMap (fun ip =>
      match lookupFn ip with
      | Except.error e => some (ip, e)
      | Except.ok _ => Option.none) = [(B, e)] := by
    simp [List.filterMap_cons, hfa, hfb, hfc]
  refine ⟨?_, ?_, ?_, ?_⟩
  · simp [process_ips, hvalid, hseq, hseqfst]
  · rw [hseq]
    exact hseqsnd
  · have : process_ips validIp lookupFn [A, B, C] true completionOrder =
        (processAccum lookupFn completionOrder).1 := by
      simp [process_ips, hvalid]
    rw [this, hpar]
    simpa [hseqfst] using hfstperm
  · rw [hpar]
    simp only
    exact List.perm_singleton.mp (hseqsnd ▸ hsndperm)

/-- Witness for the amended C1, with completion order `[C, A, B]`. -/
theorem claim_C1_amended_batch_witness :
    process_ips (fun _ => true) lookupC1 ["1.1.1.1", "2.2.2.2", "3.3.3.3"] false
        ["3.3.3.3", "1.1.1.1", "2.2.2.2"] =
      [[("ip", PyVal.str "1.1.1.1")], [("ip", PyVal.str "3.3.3.3")]] ∧
    (processAccum lookupC1 ["1.1.1.1", "2.2.2.2", "3.3.3.3"]).2 = [("2.2.2.2", "boom")] ∧
    (process_ips (fun _ => true) lookupC1 ["1.1.1.1", "2.2.2.2", "3.3.3.3"] true
        ["3.3.3.3", "1.1.1.1", "2.2.2.2"]).Perm
      [[("ip", PyVal.str "1.1.1.1")], [("ip", PyVal.str "3.3.3.3")]] ∧
    (processAccum lookupC1 ["3.3.3.3", "1.1.1.1", "2.2.2.2"]).2 = [("2.2.2.2", "boom")] :=
  claim_C1_amended_batch (fun _ => true) lookupC1 "1.1.1.1" "2.2.2.2" "3.3.3.3"
    [("ip", PyVal.str "1.1.1.1")] [("ip", PyVal.str "3.3.3.3")] "boom"
    ["3.3.3.3", "1.1.1.1", "2.2.2.2"]
    rfl rfl rfl rfl rfl rfl
    (by decide)

/-! ### The resolver retry loop: `BaseResolver.lookup`

The fallible, effectful raw acquisition `self._perform_lookup(ip, timeout)`
is abstracted as `attempt : Nat → Except String PyDict`, giving the outcome
of the i-th call (0-indexed); the normalizer `normalize_whois_result` is
passed as the function parameter `normalize` (its internals belong to the
Result Normalizer component, not to this loop); IP-string validity
(`util.validate_ip`, a wrapper over Python's `ipaddress` stdlib) is the
oracle `validIp`.  The embedding returns the lookup outcome, the list of
backoff sleeps performed (in seconds, in order), and the number of
`_perform_lookup` attempts made. -/

/-- `if 'ip' not in raw_result: raw_result['ip'] = ip`. -/
def ensureIp (raw : PyDict) (ip : String) : PyDict :=
  match dget raw "ip" with
  | some _ => raw
  | Option.none => dset raw "ip" (PyVal.str ip)

/-- The `while retry_count <= max_retries` loop of `BaseResolver.lookup`,
at current retry count `rc` with `left = max_retries - rc` retries
remaining.  On failure with retries left it sleeps `retry_count * 2`
seconds (the code's backoff, `time.sleep(retry_count * 2)`) and retries; on
exhaustion it raises `ValueError("Lookup failed: {e}")` with the last
error. -/
def lookupGo (attempt : Nat → Except String PyDict)
    (normalize : PyDict → String → PyDict) (ip name : String) :
    Nat → Nat → Except String PyDict × List Nat × Nat
  | rc, left =>
    match attempt rc with
    | Except.ok raw => (Except.ok (normalize (ensureIp raw ip) name), [], 1)
    | Except.error e =>
      match left with
      | 0 => (Except.error ("Lookup failed: " ++ e), [], 1)
      | Nat.succ leftRem =>
        let next := lookupGo attempt normalize ip name (rc + 1) leftRem
        (next.1, (rc + 1) * 2 :: next.2.1, next.2.2 + 1)

/-- `BaseResolver.lookup(ip, timeout, max_retries)`: validate the identity,
then run the retry loop. -/
def BaseResolver.lookup (validIp : String → Bool)
    (attempt : Nat → Except String PyDict) (normalize : PyDict → String → PyDict)
    (ip name : String) (max_retries : Nat) : Except String PyDict × List Nat × Nat :=
  if validIp ip then lookupGo attempt normalize ip name 0 max_retries
  else (Except.error ("Invalid IP address: " ++ ip), [], 0)

theorem lookupGo_ok (attempt : Nat → Except String PyDict)
    (normalize : PyDict → String → PyDict) (ip name : String) (rc left : Nat)
    (raw : PyDict) (h : attempt rc = Except.ok raw) :
    lookupGo attempt normalize ip name rc left =
      (Except.ok (normalize (ensureIp raw ip) name), [], 1) := by
  rw [lookupGo, h]

theorem lookupGo_err0 (attempt : Nat → Except String PyDict)
    (normalize : PyDict → String → PyDict) (ip name : String) (rc : Nat)
    (e : String) (h : attempt rc = Except.error e) :
    lookupGo attempt normalize ip name rc 0 =
      (Except.error ("Lookup failed: " ++ e), [], 1) := by
  rw [lookupGo, h]

theorem lookupGo_errS (attempt : Nat → Except String PyDict)
    (normalize : PyDict → String → PyDict) (ip name : String) (rc left : Nat)
    (e : String) (h : attempt rc = Except.error e) :
    lookupGo attempt normalize ip name rc (left + 1) =
      ((lookupGo attempt normalize ip name (rc + 1) left).1,
       (rc + 1) * 2 :: (lookupGo attempt normalize ip name (rc + 1) left).2.1,
       (lookupGo attempt normalize ip name (rc + 1) left).2.2 + 1) := by
  rw [lookupGo, h]

theorem lookupGo_attempts_pos (attempt : Nat → Except String PyDict)
    (normalize : PyDict → String → PyDict) (ip name : String) (rc left : Nat) :
    1 ≤ (lookupGo attempt normalize ip name rc left).2.2 := by
  induction left generalizing rc with
  | zero =>
    cases h : attempt rc with
    | ok raw => rw [lookupGo_ok attempt normalize ip name rc 0 raw h]
    | error e => rw [lookupGo_err0 attempt normalize ip name rc e h]
  | succ leftRem ih =>
    cases h : attempt rc with
    | ok raw => rw [lookupGo_ok attempt normalize ip name rc (leftRem + 1) raw h]
    | error e =>
      rw [lookupGo_errS attempt normalize ip name rc leftRem e h]
      exact Nat.le_add_left 1 _

theorem lookupGo_attempts_le (attempt : Nat → Except String PyDict)
    (normalize : PyDict → String → PyDict) (ip name : String) (rc left : Nat) :
    (lookupGo attempt normalize ip name rc left).2.2 ≤ left + 1 := by
  induction left generalizing rc with
  | zero =>
    cases h : attempt rc with
    | ok raw => rw [lookupGo_ok attempt normalize ip name rc 0 raw h]
    | error e => rw [lookupGo_err0 attempt normalize ip name rc e h]
  | succ leftRem ih =>
    cases h : attempt rc with
    | ok raw =>
      rw [lookupGo_ok attempt normalize ip name rc (leftRem + 1) raw h]
      show 1 ≤ leftRem + 1 + 1
      omega
    | error e =>
      rw [lookupGo_errS attempt normalize ip name rc leftRem e h]
      have := ih (rc + 1)
      show (lookupGo attempt normalize ip name (rc + 1) leftRem).2.2 + 1 ≤ leftRem + 1 + 1
      omega

theorem lookupGo_sleeps (attempt : Nat → Except String PyDict)
    (normalize : PyDict → String → PyDict) (ip name : String) (rc left : Nat) :
    (lookupGo attempt normalize ip name rc left).2.1 =
      (List.range ((lookupGo attempt normalize ip name rc left).2.2 - 1)).map
        (fun i => (rc + i + 1) * 2) := by
  induction left generalizing rc with
  | zero =>
    cases h : attempt rc with
    | ok raw =>
      rw [lookupGo_ok attempt normalize ip name rc 0 raw h]
      simp
    | error e =>
      rw [lookupGo_err0 attempt normalize ip name rc e h]
      simp
  | succ leftRem ih =>
    cases h : attempt rc with
    | ok raw =>
      rw [lookupGo_ok attempt normalize ip name rc (leftRem + 1) raw h]
      simp
    | error e =>
      have hpos := lookupGo_attempts_pos attempt normalize ip name (rc + 1) leftRem
      obtain ⟨m, hm⟩ : ∃ m, (lookupGo attempt normalize ip name (rc + 1) leftRem).2.2 = m + 1 :=
        ⟨(lookupGo attempt normalize ip name (rc + 1) leftRem).2.2 - 1, by omega⟩
      have hrec := ih (rc + 1)
      rw [hm] at hrec
      rw [lookupGo_errS attempt normalize ip name rc leftRem e h]
      simp only [hrec, hm, Nat.add_sub_cancel, Nat.succ_sub_one]
      rw [List.range_succ_eq_map]
      simp only [List.map_cons, List.map_map]
      have hhead : (rc + 1) * 2 = (rc + 0 + 1) * 2 := by omega
      have htail : List.map (fun i => (rc + 1 + i + 1) * 2) (List.range m) =
          List.map ((fun i => (rc + i + 1) * 2) ∘ Nat.succ) (List.range m) := by
        apply List.map_congr_left
        intro i _
        simp only [Function.comp_apply]
        omega
      rw [hhead, htail]

theorem lookupGo_allfail (attempt : Nat → Except String PyDict)
    (normalize : PyDict → String → PyDict) (ip name : String) (rc left : Nat)
    (eN : String)
    (h : ∀ j, j ≤ left → ∃ e, attempt (rc + j) = Except.error e)
    (hN : attempt (rc + left) = Except.error eN) :
    (lookupGo attempt normalize ip name rc left).1 =
      Except.error ("Lookup failed: " ++ eN) := by
  induction left generalizing rc with
  | zero =>
    simp only [Nat.add_zero] at hN
    rw [lookupGo_err0 attempt normalize ip name rc eN hN]
  | succ leftRem ih =>
    obtain ⟨e, he⟩ := h 0 (Nat.zero_le _)
    simp only [Nat.add_zero] at he
    have hrec := ih (rc + 1)
      (fun j hj => by
        have := h (j + 1) (Nat.succ_le_succ hj)
        simpa [Nat.add_assoc, Nat.add_comm 1 j] using this)
      (by
        have : rc + 1 + leftRem = rc + (leftRem + 1) := by omega
        rw [this]
        exact hN)
    rw [lookupGo_errS attempt normalize ip name rc leftRem e he]
    exact hrec

theorem lookupGo_success (attempt : Nat → Except String PyDict)
    (normalize : PyDict → String → PyDict) (ip name : String) :
    ∀ (k rc left : Nat) (raw : PyDict), k ≤ left →
    (∀ j, j < k → ∃ e, attempt (rc + j) = Except.error e) →
    attempt (rc + k) = Except.ok raw →
    (lookupGo attempt normalize ip name rc left).1 =
      Except.ok (normalize (ensureIp raw ip) name) := by
  intro k
  induction k with
  | zero =>
    intro rc left raw _ _ hok
    simp only [Nat.add_zero] at hok
    rw [lookupGo_ok attempt normalize ip name rc left raw hok]
  | succ kRem ih =>
    intro rc left raw hk hfail hok
    obtain ⟨e, he⟩ := hfail 0 (Nat.succ_pos _)
    simp only [Nat.add_zero] at he
    obtain ⟨leftRem, rfl⟩ : ∃ l, left = l + 1 := ⟨left - 1, by omega⟩
    have hrec := ih (rc + 1) leftRem raw (by omega)
      (fun j hj => by
        have := hfail (j + 1) (Nat.succ_lt_succ hj)
        simpa [Nat.add_assoc, Nat.add_comm 1 j] using this)
      (by
        have : rc + 1 + kRem = rc + (kRem + 1) := by omega
        rw [this]
        exact hok)
    rw [lookupGo_errS attempt normalize ip name rc leftRem e he]
    exact hrec

/-- **C8.** For every valid identity: the resolver's `lookup` makes at most
`1 + max_retries` attempts; before each retry it sleeps
`attempt_number * 2` seconds (base delay 2, growing with the retry number);
if every attempt fails it raises `LookupFailed` wrapping the last error's
message; and on first success it normalizes the raw data after ensuring the
`ip` field is present. -/
theorem claim_C8_retry_backoff (validIp : String → Bool)
    (attempt : Nat → Except String PyDict) (normalize : PyDict → String → PyDict)
    (ip name : String) (max_retries : Nat) (hv : validIp ip = true) :
    (BaseResolver.lookup validIp attempt normalize ip name max_retries).2.2 ≤
      max_retries + 1 ∧
    (BaseResolver.lookup validIp attempt normalize ip name max_retries).2.1 =
      (List.range
        ((BaseResolver.lookup validIp attempt normalize ip name max_retries).2.2 - 1)).map
        (fun i => (i + 1) * 2) ∧
    (∀ eN, (∀ j, j ≤ max_retries → ∃ e, attempt j = Except.error e) →
      attempt max_retries = Except.error eN →
      (BaseResolver.lookup validIp attempt normalize ip name max_retries).1 =
        Except.error ("Lookup failed: " ++ eN)) ∧
    (∀ k raw, k ≤ max_retries →
      (∀ j, j < k → ∃ e, attempt j = Except.error e) →
      attempt k = Except.ok raw →
      (BaseResolver.lookup validIp attempt normalize ip name max_retries).1 =
        Except.ok (normalize (ensureIp raw ip) name)) := by
  simp only [BaseResolver.lookup, hv, if_true]
  refine ⟨lookupGo_attempts_le attempt normalize ip name 0 max_retries, ?_, ?_, ?_⟩
  · have := lookupGo_sleeps attempt normalize ip name 0 max_retries
    simpa using this
  · intro eN hall hN
    exact lookupGo_allfail attempt normalize ip name 0 max_retries eN
      (fun j hj => by simpa using hall j hj)
      (by simpa using hN)
  · intro k raw hk hfail hok
    exact lookupGo_success attempt normalize ip name k 0 max_retries raw hk
      (fun j hj => by simpa using hfail j hj)
      (by simpa using hok)

/-- The attempt sequence used to witness C8: the first two acquisitions
fail, the third succeeds. -/
def attemptsC8 (i : Nat) : Except String PyDict :=
  if i = 0 then Except.error "e0"
  else if i = 1 then Except.error "e1"
  else Except.ok [("organization", PyVal.str "Org")]

/-- Witness for C8 with `max_retries = 2` and success at the third attempt:
three attempts, backoff sleeps `[2, 4]`, and the normalized ip-ensured
record is returned. -/
theorem claim_C8_retry_backoff_witness :
    (BaseResolver.lookup (fun _ => true) attemptsC8
        (fun raw src => dset raw "source" (PyVal.str src)) "1.2.3.4" "R" 2).2.2 ≤ 3 ∧
    (BaseResolver.lookup (fun _ => true) attemptsC8
        (fun raw src => dset raw "source" (PyVal.str src)) "1.2.3.4" "R" 2).1 =
      Except.ok (dset (ensureIp [("organization", PyVal.str "Org")] "1.2.3.4")
        "source" (PyVal.str "R")) := by
  obtain ⟨hle, _hsleep, _hfail, hsucc⟩ :=
    claim_C8_retry_backoff (fun _ => true) attemptsC8
      (fun raw src => dset raw "source" (PyVal.str src)) "1.2.3.4" "R" 2 rfl
  refine ⟨hle, hsucc 2 [("organization", PyVal.str "Org")] (by omega) ?_ rfl⟩
  intro j hj
  interval_cases j
  · exact ⟨"e0", rfl⟩
  · exact ⟨"e1", rfl⟩

/-! ### System WHOIS text parser: `SystemWhoisResolver._parse_whois_output`

The parser's table applies `re.search(pattern, line, re.IGNORECASE)` with
patterns of two shapes: `(?:alt₁|alt₂|…):\s*(.+)$` and `origin:\s*AS(\d+)$`.
`re.search` is embedded on character lists: try each start position left to
right; at a position try the alternatives in the regex's backtracking order
(the nested alternation `Org(?:anization)? Name` is flattened in that
order), each followed by `:`, then greedy `\s*` and a non-empty capture
running to the end of the line.  `output.splitlines()` is embedded as a
split on `'\n'` (the newline the theorems use). -/

/-- Case-insensitive "pattern starts here" on character lists. -/
def ciStarts : List Char → List Char → Bool
  | [], _ => true
  | _ :: _, [] => false
  | p :: ps, c :: cs => (p.toLower == c.toLower) && ciStarts ps cs

/-- Python's `\s` (ASCII whitespace classes). -/
def wsChar (c : Char) : Bool :=
  c = ' ' || c = '\t' || c = '\n' || c = '\x0d' || c = '\x0b' || c = '\x0c'

/-- `str.strip()`. -/
def stripChars (s : List Char) : List Char :=
  ((s.dropWhile wsChar).reverse.dropWhile wsChar).reverse

/-- Match `\s*(.+)$` against the rest of the line, with the regex's
backtracking: greedy whitespace, then a non-empty capture to the end. -/
def capRest (rest : List Char) : Option (List Char) :=
  let ws := rest.takeWhile wsChar
  let rem := rest.drop ws.length
  if !rem.isEmpty then some rem
  else if !ws.isEmpty then some (rest.drop (ws.length - 1))
  else Option.none

/-- Try the alternatives (each followed by `:` then `\s*(.+)$`) at one start
position, in backtracking order. -/
def tryAlts (alts : List String) (s : List Char) : Option (List Char) :=
  match alts with
  | [] => Option.none
  | a :: rest =>
    if ciStarts (a.toList ++ [':']) s then
      match capRest (s.drop (a.length + 1)) with
      | some cap => some cap
      | Option.none => tryAlts rest s
    else tryAlts rest s

/-- `re.search` for a `(?:alt₁|…):\s*(.+)$` pattern: scan start positions
left to right. -/
def searchKeyVal (alts : List String) : List Char → Option (List Char)
  | [] => Option.none
  | c :: cs =>
    match tryAlts alts (c :: cs) with
    | some cap => some cap
    | Option.none => searchKeyVal alts cs

/-- Match `origin:\s*AS(\d+)$` at one start position. -/
def matchOriginAt (s : List Char) : Option (List Char) :=
  if ciStarts "origin:".toList s then
    let rem := (s.drop 7).dropWhile wsChar
    if ciStarts "AS".toList rem then
      let ds := rem.drop 2
      if !ds.isEmpty && ds.all Char.isDigit then some ds else Option.none
    else Option.none
  else Option.none

/-- `re.search` for `origin:\s*AS(\d+)$`. -/
def searchOriginAS : List Char → Option (List Char)
  | [] => Option.none
  | c :: cs =>
    match matchOriginAt (c :: cs) with
    | some ds => some ds
    | Option.none => searchOriginAS cs

/-- One pattern of the table. -/
inductive WhoisPat : Type where
  | keyVal : List String → WhoisPat
  | originAS : WhoisPat

/-- `re.search(pattern, line, re.IGNORECASE)` followed by
`match.group(1).strip()`. -/
def matchWhoisPat : WhoisPat → List Char → Option String
  | WhoisPat.keyVal alts, line => (searchKeyVal alts line).map (fun c => String.mk (stripChars c))
  | WhoisPat.originAS, line => (searchOriginAS line).map (fun c => String.mk (stripChars c))

/-- The inner `for pattern in pattern_list` loop with its `break`: the first
matching pattern of the list supplies the value for this line. -/
def matchPatList : List WhoisPat → List Char → Option String
  | [], _ => Option.none
  | p :: ps, line =>
    match matchWhoisPat p line with
    | some v => some v
    | Option.none => matchPatList ps line

/-- The parser's pattern table, in source order, with each regex's
alternatives flattened in backtracking order. -/
def whoisPatterns : List (String × List WhoisPat) :=
  [("organization",
     [WhoisPat.keyVal ["Organization", "Organization Name", "Org Name"],
      WhoisPat.keyVal ["descr", "owner"]]),
   ("country",
     [WhoisPat.keyVal ["Country", "Country Code"],
      WhoisPat.keyVal ["country"]]),
   ("asn",
     [WhoisPat.keyVal ["OriginAS", "Origin AS", "ASNumber", "ASN"],
      WhoisPat.originAS]),
   ("network",
     [WhoisPat.keyVal ["CIDR", "NetRange", "Network"],
      WhoisPat.keyVal ["inetnum"]]),
   ("registered",
     [WhoisPat.keyVal ["RegDate", "Created", "Registration Date"],
      WhoisPat.keyVal ["created"]])]

/-- The `for key, pattern_list in patterns.items()` loop for one line:
every key whose pattern list matches is assigned — `result[key] = …`
overwrites unconditionally. -/
def parseTableFold (res : PyDict) (l : List Char) : PyDict :=
  whoisPatterns.foldl (fun res kp =>
    match matchPatList kp.2 l with
    | some v => dset res kp.1 (PyVal.str v)
    | Option.none => res) res

/-- Split a character list on a separator (the embedding of
`output.splitlines()` for `'\n'`-separated text). -/
def splitOnChar (sep : Char) : List Char → List (List Char)
  | [] => [[]]
  | c :: cs =>
    if c = sep then [] :: splitOnChar sep cs
    else
      match splitOnChar sep cs with
      | [] => [[c]]
      | g :: gs => (c :: g) :: gs

/-- Process one output line: strip, skip empty/comment lines, else run the
pattern table. -/
def parseLine (res : PyDict) (line : List Char) : PyDict :=
  match stripChars line with
  | [] => res
  | c :: cs =>
    if c = '%' ∨ c = '#' then res
    else parseTableFold res (c :: cs)

/-- `SystemWhoisResolver._parse_whois_output`: start from `{'ip': ip}` and
fold the table over every line. -/
def _parse_whois_output (output ip : String) : PyDict :=
  (splitOnChar '\n' output.toList).foldl parseLine [("ip", PyVal.str ip)]

/-- **C4, counterexample.** In the output `"Country: US\ncountry: DE"` both
lines match the country patterns; the parser stores `"DE"`, the value of
the LATER matching line, overwriting the first line's `"US"` — refuting the
claim that the first matching line wins and later lines never overwrite. -/
theorem claim_C4_counterexample :
    dget (_parse_whois_output "Country: US\ncountry: DE" "1.2.3.4") "country" =
      some (PyVal.str "DE") ∧ ("DE" : String) ≠ "US" :=
  ⟨rfl, by decide⟩

/-- The value a line contributes for a fixed pattern list, threading the
previous value: comment/empty/non-matching lines keep it, a matching line
replaces it. -/
def lineValue (pats : List WhoisPat) (cur : Option PyVal) (line : List Char) : Option PyVal :=
  match stripChars line with
  | [] => cur
  | c :: cs =>
    if c = '%' ∨ c = '#' then cur
    else match matchPatList pats (c :: cs) with
         | some v => some (PyVal.str v)
         | Option.none => cur

theorem dget_parseTableFold_notmem (table : List (String × List WhoisPat))
    (res : PyDict) (l : List Char) (k : String)
    (h : k ∉ table.map Prod.fst) :
    dget (table.foldl (fun res kp =>
      match matchPatList kp.2 l with
      | some v => dset res kp.1 (PyVal.str v)
      | Option.none => res) res) k = dget res k := by
  induction table generalizing res with
  | nil => rfl
  | cons kp rest ih =>
    obtain ⟨k₀, pats₀⟩ := kp
    simp only [List.map_cons, List.mem_cons, not_or] at h
    obtain ⟨hk₀, hrest⟩ := h
    simp only [List.foldl_cons]
    cases hm : matchPatList pats₀ l with
    | none => simpa [hm] using ih res hrest
    | some v =>
      have heq : dget (dset res k₀ (PyVal.str v)) k = dget res k := by
        rw [dget_dset]
        simp [Ne.symm hk₀]
      simpa [hm] using (ih (dset res k₀ (PyVal.str v)) hrest).trans heq

theorem dget_parseTableFold (table : List (String × List WhoisPat))
    (res : PyDict) (l : List Char) (k : String) (pats : List WhoisPat)
    (hmem : (k, pats) ∈ table) (hnd : (table.map Prod.fst).Nodup) :
    dget (table.foldl (fun res kp =>
      match matchPatList kp.2 l with
      | some v => dset res kp.1 (PyVal.str v)
      | Option.none => res) res) k =
    (match matchPatList pats l with
     | some v => some (PyVal.str v)
     | Option.none => dget res k) := by
  induction table generalizing res with
  | nil => exact absurd hmem (List.not_mem_nil _)
  | cons kp rest ih =>
    obtain ⟨k₀, pats₀⟩ := kp
    simp only [List.map_cons, List.nodup_cons] at hnd
    obtain ⟨hk₀rest, hndrest⟩ := hnd
    rcases List.mem_cons.mp hmem with hhead | htail
    · cases hhead
      have hknotrest : k ∉ rest.map Prod.fst := hk₀rest
      simp only [List.foldl_cons]
      cases hm : matchPatList pats l with
      | none => simpa [hm] using dget_parseTableFold_notmem rest res l k hknotrest
      | some v =>
        have := dget_parseTableFold_notmem rest (dset res k (PyVal.str v)) l k hknotrest
        rw [this, dget_dset]
        simp
    · have hkne : k₀ ≠ k := by
        intro h
        subst h
        exact hk₀rest (List.mem_map.mpr ⟨(k₀, pats), htail, rfl⟩)
      simp only [List.foldl_cons]
      cases hm : matchPatList pats₀ l with
      | none => simpa [hm] using ih res htail hndrest
      | some v =>
        have hstep : dget (dset res k₀ (PyVal.str v)) k = dget res k := by
          rw [dget_dset]
          simp [hkne]
        have := ih (dset res k₀ (PyVal.str v)) htail hndrest
        rw [hstep] at this
        simpa [hm] using this

theorem dget_foldl_parseLine (lines : List (List Char)) (res : PyDict)
    (k : String) (pats : List WhoisPat)
    (hmem : (k, pats) ∈ whoisPatterns) :
    dget (lines.foldl parseLine res) k = lines.foldl (lineValue pats) (dget res k) := by
  have hnd : (whoisPatterns.map Prod.fst).Nodup := by decide
  induction lines generalizing res with
  | nil => rfl
  | cons line rest ih =>
    simp only [List.foldl_cons]
    rw [ih]
    congr 1
    show dget (parseLine res line) k = lineValue pats (dget res k) line
    unfold parseLine lineValue
    cases hs : stripChars line with
    | nil => rfl
    | cons c cs =>
      by_cases hc : c = '%' ∨ c = '#'
      · simp [hc]
      · simp only [if_neg hc]
        exact dget_parseTableFold whoisPatterns res (c :: cs) k pats hmem hnd

/-- **C4, amended.** For every raw WHOIS text output and every canonical
field of the pattern table, the parser assigns the field from the LAST
non-comment line whose pattern list matches (within one line, the first
pattern of the list supplies the value); a later matching line always
overwrites the value set by an earlier one. -/
theorem claim_C4_amended_last_match (output ip k : String) (pats : List WhoisPat)
    (hmem : (k, pats) ∈ whoisPatterns) :
    dget (_parse_whois_output output ip) k =
      (splitOnChar '\n' output.toList).foldl (lineValue pats) Option.none := by
  have hki : dget [("ip", PyVal.str ip)] k = Option.none := by
    have : k ≠ "ip" := by
      simp only [whoisPatterns, List.mem_cons, List.not_mem_nil, or_false] at hmem
      rcases hmem with h | h | h | h | h <;> (injection h with h1 h2; subst h1; decide)
    simp [dget, Ne.symm this]
  rw [_parse_whois_output,
    dget_foldl_parseLine (splitOnChar '\n' output.toList) _ k pats hmem, hki]

/-- Witness for the amended C4: on `"Country: US\ncountry: DE"` the country
field equals the second line's value. -/
theorem claim_C4_amended_last_match_witness :
    dget (_parse_whois_output "Country: US\ncountry: DE" "9.9.9.9") "country" =
      some (PyVal.str "DE") :=
  (claim_C4_amended_last_match "Country: US\ncountry: DE" "9.9.9.9" "country"
    [WhoisPat.keyVal ["Country", "Country Code"], WhoisPat.keyVal ["country"]]
    (by simp [whoisPatterns])).trans (by rfl)

/-! ### The disk cache: `CacheManager`

Cache key derivation (`_get_cache_path`) is pure; `get`, `set` and
`clean_expired` take the filesystem state and I/O-failure oracles as
explicit parameters. -/

/-- One character of `ip.replace(':', '_')`. -/
def escapeChar (c : Char) : Char := if c = ':' then '_' else c

/-- `ip.replace(':', '_')` — "Replace colons with underscores for IPv6
support". -/
def escapeIp (ip : String) : String := String.mk (ip.toList.map escapeChar)

/-- `CacheManager._get_cache_path`:
`os.path.join(self.cache_dir, f"{ip}_{method}.json")` with the escaped ip. -/
def _get_cache_path (cache_dir ip method : String) : String :=
  cache_dir ++ "/" ++ escapeIp ip ++ "_" ++ method ++ ".json"

/-- Characters that occur in textual IPv4/IPv6 addresses: hex digits, the
dot and the colon. -/
def isIpChar (c : Char) : Bool :=
  c.isDigit || ('a' ≤ c && c ≤ 'f') || ('A' ≤ c && c ≤ 'F') || c = '.' || c = ':'

/-- The method labels `get_resolver_by_method` accepts (and `lookup_method`
values the engine caches under). -/
def methodLabels : List String := ["auto", "ipwhois", "pythonwhois", "system"]

theorem isIpChar_no_underscore {l : List Char} (h : l.all isIpChar = true) :
    '_' ∉ l := by
  intro hm
  exact absurd (List.all_eq_true.mp h _ hm) (by decide)

theorem sep_append_inj (sep : Char) :
    ∀ (x1 x2 y1 y2 : List Char), sep ∉ x1 → sep ∉ x2 →
      x1 ++ sep :: y1 = x2 ++ sep :: y2 → x1 = x2 ∧ y1 = y2 := by
  intro x1
  induction x1 with
  | nil =>
    intro x2 y1 y2 _ h2 heq
    cases x2 with
    | nil =>
      simp only [List.nil_append, List.cons.injEq] at heq
      exact ⟨rfl, heq.2⟩
    | cons c t =>
      simp only [List.nil_append, List.cons_append, List.cons.injEq] at heq
      rw [heq.1] at h2
      exact absurd (List.mem_cons_self _ _) h2
  | cons a t ih =>
    intro x2 y1 y2 h1 h2 heq
    cases x2 with
    | nil =>
      simp only [List.cons_append, List.nil_append, List.cons.injEq] at heq
      rw [← heq.1] at h1
      exact absurd (List.mem_cons_self _ _) h1
    | cons b u =>
      simp only [List.cons_append, List.cons.injEq] at heq
      obtain ⟨hab, hrest⟩ := heq
      have h1' : sep ∉ t := fun hmt => h1 (List.mem_cons_of_mem a hmt)
      have h2' : sep ∉ u := fun hmu => h2 (List.mem_cons_of_mem b hmu)
      obtain ⟨hx, hy⟩ := ih u y1 y2 h1' h2' hrest
      exact ⟨by rw [hab, hx], hy⟩

theorem escape_map_inj : ∀ (l1 l2 : List Char), '_' ∉ l1 → '_' ∉ l2 →
    l1.map escapeChar = l2.map escapeChar → l1 = l2 := by
  intro l1
  induction l1 with
  | nil =>
    intro l2 _ _ h
    cases l2 with
    | nil => rfl
    | cons b u => exact absurd h (by simp)
  | cons a t ih =>
    intro l2 h1 h2 h
    cases l2 with
    | nil => exact absurd h (by simp)
    | cons b u =>
      simp only [List.map_cons, List.cons.injEq] at h
      obtain ⟨hab, htu⟩ := h
      have h1' : '_' ∉ t := fun hm => h1 (List.mem_cons_of_mem a hm)
      have h2' : '_' ∉ u := fun hm => h2 (List.mem_cons_of_mem b hm)
      have ha : a = b := by
        unfold escapeChar at hab
        by_cases ha' : a = ':'
        · by_cases hb' : b = ':'
          · rw [ha', hb']
          · rw [if_pos ha', if_neg hb'] at hab
            rw [← hab] at h2
            exact absurd (List.mem_cons_self _ _) h2
        · by_cases hb' : b = ':'
          · rw [if_neg ha', if_pos hb'] at hab
            rw [hab] at h1
            exact absurd (List.mem_cons_self _ _) h1
          · rw [if_neg ha', if_neg hb'] at hab
            exact hab
      rw [ha, ih u h1' h2' htu]

theorem method_no_underscore {m : String} (hm : m ∈ methodLabels) :
    '_' ∉ m.toList := by
  simp only [methodLabels, List.mem_cons, List.not_mem_nil, or_false] at hm
  rcases hm with rfl | rfl | rfl | rfl <;> decide

/-- **C9.** For identities made of IP-address characters and methods among
the configured labels: equal cache paths force equal (identity, method)
pairs (so distinct pairs get distinct files — the colon escape is lossless
and the method labels contain no underscore), and the derived filename is
filesystem-safe (free of `:` and of the path separator `/`). -/
theorem claim_C9_cache_key (cache_dir ip1 ip2 m1 m2 : String)
    (hip1 : ip1.toList.all isIpChar = true) (hip2 : ip2.toList.all isIpChar = true)
    (hm1 : m1 ∈ methodLabels) (hm2 : m2 ∈ methodLabels) :
    (_get_cache_path cache_dir ip1 m1 = _get_cache_path cache_dir ip2 m2 →
      ip1 = ip2 ∧ m1 = m2) ∧
    (∀ c ∈ (escapeIp ip1 ++ "_" ++ m1 ++ ".json").toList, c ≠ ':' ∧ c ≠ '/') := by
  constructor
  · intro heq
    have hlist : cache_dir.toList ++ '/' ::
        ((ip1.toList.map escapeChar) ++ '_' :: (m1.toList ++ ".json".toList)) =
        cache_dir.toList ++ '/' ::
        ((ip2.toList.map escapeChar) ++ '_' :: (m2.toList ++ ".json".toList)) := by
      have := congrArg String.toList heq
      simpa [_get_cache_path, escapeIp, List.append_assoc] using this
    have hbody := List.cons.injEq .. ▸ List.append_cancel_left hlist
    have hsplit : (ip1.toList.map escapeChar) ++ '_' :: (m1.toList ++ ".json".toList) =
        (ip2.toList.map escapeChar) ++ '_' :: (m2.toList ++ ".json".toList) := by
      have h' := List.append_cancel_left hlist
      exact (List.cons.injEq .. ▸ h').2
    have hrev : (m1.toList ++ ".json".toList).reverse ++ '_' ::
        (ip1.toList.map escapeChar).reverse =
        (m2.toList ++ ".json".toList).reverse ++ '_' ::
        (ip2.toList.map escapeChar).reverse := by
      have := congrArg List.reverse hsplit
      simpa [List.reverse_append, List.append_assoc] using this
    have hnu1 : '_' ∉ (m1.toList ++ ".json".toList).reverse := by
      rw [List.mem_reverse]
      intro hmem
      rcases List.mem_append.mp hmem with h | h
      · exact method_no_underscore hm1 h
      · exact absurd h (by decide)
    have hnu2 : '_' ∉ (m2.toList ++ ".json".toList).reverse := by
      rw [List.mem_reverse]
      intro hmem
      rcases List.mem_append.mp hmem with h | h
      · exact method_no_underscore hm2 h
      · exact absurd h (by decide)
    obtain ⟨hmj, hesc⟩ := sep_append_inj '_' _ _ _ _ hnu1 hnu2 hrev
    have hm : m1.toList = m2.toList :=
      List.append_cancel_right (List.reverse_injective hmj)
    have hip : ip1.toList = ip2.toList :=
      escape_map_inj _ _ (isIpChar_no_underscore hip1) (isIpChar_no_underscore hip2)
        (List.reverse_injective hesc)
    constructor
    · cases ip1
      cases ip2
      exact congrArg String.mk hip
    · cases m1
      cases m2
      exact congrArg String.mk hm
  · intro c hc
    have hc' : c ∈ (ip1.toList.map escapeChar) ++ '_' :: (m1.toList ++ ".json".toList) := by
      simpa [escapeIp, List.append_assoc] using hc
    rcases List.mem_append.mp hc' with h | h
    · obtain ⟨a, ha, rfl⟩ := List.mem_map.mp h
      have hia := List.all_eq_true.mp hip1 _ ha
      by_cases ha' : a = ':'
      · simp [escapeChar, ha']
      · have : escapeChar a = a := by simp [escapeChar, ha']
        rw [this]
        refine ⟨ha', ?_⟩
        intro hslash
        rw [hslash] at hia
        exact absurd hia (by decide)
    · rcases List.mem_cons.mp h with rfl | h
      · exact ⟨by decide, by decide⟩
      · rcases List.mem_append.mp h with h | h
        · have hall : ∀ m ∈ methodLabels, ∀ x ∈ m.toList, x ≠ ':' ∧ x ≠ '/' := by decide
          exact hall m1 hm1 c h
        · have hall : ∀ x ∈ ".json".toList, x ≠ ':' ∧ x ≠ '/' := by decide
          exact hall c h

/-- Witness for C9 at an IPv6/IPv4 pair of identities with different
methods: the hypotheses hold and both conclusions apply. -/
theorem claim_C9_cache_key_witness :
    (_get_cache_path "cache" "2001:db8::1" "auto" =
        _get_cache_path "cache" "1.2.3.4" "system" →
      ("2001:db8::1" : String) = "1.2.3.4" ∧ ("auto" : String) = "system") ∧
    (∀ c ∈ (escapeIp "2001:db8::1" ++ "_" ++ "auto" ++ ".json").toList,
      c ≠ ':' ∧ c ≠ '/') :=
  claim_C9_cache_key "cache" "2001:db8::1" "1.2.3.4" "auto" "system"
    (by decide) (by decide) (by decide) (by decide)

/-- How far `open` + `json.load` get on one cache file. -/
inductive FileData : Type where
  | json : PyVal → FileData
  | corrupt : FileData
  | unreadable : FileData

/-- `data.get('timestamp', 0)` followed by the numeric use
`time.time() - timestamp`: `Option.none` models the exception Python would
raise there (`AttributeError` on a non-dict `data`, `TypeError` on a
non-numeric timestamp); both `get` and `clean_expired` catch it. -/
def entryTimestamp : PyVal → Option Int
  | PyVal.dict d =>
    match dget d "timestamp" with
    | Option.none => some 0
    | some (PyVal.int n) => some n
    | some _ => Option.none
  | _ => Option.none

/-- `data.get('result')`. -/
def entryResult : PyVal → Option PyVal
  | PyVal.dict d => dget d "result"
  | _ => Option.none

/-- `CacheManager.get`: missing file, unreadable file, corrupt JSON, a
non-conforming entry, and a stale entry all degrade to `Option.none`
(Python returns `None` after catching the exception); only a fresh entry
yields its `result` field. -/
def CacheManager.get (fs : String → Option FileData) (cache_dir : String)
    (ttl now : Int) (ip method : String) : Option PyVal :=
  match fs (_get_cache_path cache_dir ip method) with
  | Option.none => Option.none
  | some FileData.unreadable => Option.none
  | some FileData.corrupt => Option.none
  | some (FileData.json v) =>
    match entryTimestamp v with
    | Option.none => Option.none
    | some ts => if now - ts > ttl then Option.none else entryResult v

/-- The filesystem writes `CacheManager.set` performs. -/
inductive FsWrite : Type where
  | writeTemp : String → FsWrite
  | rename : String → String → FsWrite
deriving DecidableEq

/-- `CacheManager.set`: refuse `None`; otherwise write the payload to
`cache_file + ".tmp"` and atomically `os.replace` it onto `cache_file`.
`writeOk`/`renameOk` are failure oracles for the two I/O steps; a failure
is caught and turned into `false`.  Returns the Python return value and
the write trace that reached the filesystem. -/
def CacheManager.set (cache_dir ip method : String) (result : Option PyDict)
    (writeOk renameOk : Bool) : Bool × List FsWrite :=
  match result with
  | Option.none => (false, [])
  | some _ =>
    let cache_file := _get_cache_path cache_dir ip method
    let temp_file := cache_file ++ ".tmp"
    if !writeOk then (false, [])
    else if !renameOk then (false, [FsWrite.writeTemp temp_file])
    else (true, [FsWrite.writeTemp temp_file, FsWrite.rename temp_file cache_file])

/-- `str.endswith(suffix)`, structurally on characters. -/
def endsWithStr (s sfx : String) : Bool :=
  List.isPrefixOf sfx.toList.reverse s.toList.reverse

/-- One file of the `clean_expired` scan: skip non-`.json` names and
`.tmp` names; delete corrupt files (`except JSONDecodeError`) and stale
entries; every other failure is logged and skipped. -/
def cleanStep (ttl now : Int) (acc : Nat × List String) (f : String × FileData) :
    Nat × List String :=
  if !(endsWithStr f.1 ".json") then acc
  else if endsWithStr f.1 ".tmp" then acc
  else match f.2 with
    | FileData.unreadable => acc
    | FileData.corrupt => (acc.1 + 1, acc.2 ++ [f.1])
    | FileData.json v =>
      match entryTimestamp v with
      | Option.none => acc
      | some ts => if now - ts > ttl then (acc.1 + 1, acc.2 ++ [f.1]) else acc

/-- `CacheManager.clean_expired`: tolerate a missing directory, else scan
the listing; returns the count and the names removed. -/
def CacheManager.clean_expired (dirExists : Bool)
    (files : List (String × FileData)) (ttl now : Int) : Nat × List String :=
  if !dirExists then (0, [])
  else files.foldl (cleanStep ttl now) (0, [])

/-- The condition under which the scan deletes a file. -/
def shouldDelete (ttl now : Int) (fn : String) (fd : FileData) : Bool :=
  if !(endsWithStr fn ".json") then false
  else if endsWithStr fn ".tmp" then false
  else match fd with
    | FileData.unreadable => false
    | FileData.corrupt => true
    | FileData.json v =>
      match entryTimestamp v with
      | Option.none => false
      | some ts => now - ts > ttl

theorem cleanStep_eq (ttl now : Int) (acc : Nat × List String) (f : String × FileData) :
    cleanStep ttl now acc f =
      if shouldDelete ttl now f.1 f.2 then (acc.1 + 1, acc.2 ++ [f.1]) else acc := by
  obtain ⟨fn, fd⟩ := f
  simp only [cleanStep, shouldDelete]
  by_cases h1 : endsWithStr fn ".json"
  · by_cases h2 : endsWithStr fn ".tmp"
    · simp [h1, h2]
    · cases fd with
      | unreadable => simp [h1, h2]
      | corrupt => simp [h1, h2]
      | json v =>
        cases hts : entryTimestamp v with
        | none => simp [h1, h2, hts]
        | some ts => by_cases h3 : now - ts > ttl <;> simp [h1, h2, hts, h3]
  · simp [h1]

theorem foldl_cleanStep (ttl now : Int) (files : List (String × FileData))
    (n : Nat) (ds : List String) :
    files.foldl (cleanStep ttl now) (n, ds) =
      (n + (files.filterMap (fun f =>
        if shouldDelete ttl now f.1 f.2 then some f.1 else Option.none)).length,
       ds ++ files.filterMap (fun f =>
        if shouldDelete ttl now f.1 f.2 then some f.1 else Option.none)) := by
  induction files generalizing n ds with
  | nil => simp
  | cons f rest ih =>
    simp only [List.foldl_cons, cleanStep_eq]
    by_cases hsd : shouldDelete ttl now f.1 f.2
    · simp only [hsd, if_true, List.filterMap_cons, ih]
      simp [hsd]
      omega
    · simp only [hsd, if_false, List.filterMap_cons, ih]
      simp [hsd]

/-- **C7.** `get` returns absent on a missing, unreadable, corrupt,
non-conforming or stale entry (exceptions degrade to absent); and
`clean_expired` returns `(0, [])` when the directory is missing, returns a
count equal to the number of deletions, and deletes every `.json` entry
that is corrupt or whose age exceeds ttl. -/
theorem claim_C7_cache_get_clean (fs : String → Option FileData)
    (cache_dir ip method : String) (ttl now : Int)
    (dirExists : Bool) (files : List (String × FileData)) :
    (fs (_get_cache_path cache_dir ip method) = Option.none →
      CacheManager.get fs cache_dir ttl now ip method = Option.none) ∧
    (fs (_get_cache_path cache_dir ip method) = some FileData.corrupt →
      CacheManager.get fs cache_dir ttl now ip method = Option.none) ∧
    (fs (_get_cache_path cache_dir ip method) = some FileData.unreadable →
      CacheManager.get fs cache_dir ttl now ip method = Option.none) ∧
    (∀ v ts, fs (_get_cache_path cache_dir ip method) = some (FileData.json v) →
      entryTimestamp v = some ts → now - ts > ttl →
      CacheManager.get fs cache_dir ttl now ip method = Option.none) ∧
    (dirExists = false →
      CacheManager.clean_expired dirExists files ttl now = (0, [])) ∧
    ((CacheManager.clean_expired dirExists files ttl now).1 =
      (CacheManager.clean_expired dirExists files ttl now).2.length) ∧
    (∀ fn fd, (fn, fd) ∈ files → dirExists = true →
      endsWithStr fn ".json" = true → endsWithStr fn ".tmp" = false →
      (fd = FileData.corrupt ∨
        (∃ v ts, fd = FileData.json v ∧ entryTimestamp v = some ts ∧ now - ts > ttl)) →
      fn ∈ (CacheManager.clean_expired dirExists files ttl now).2) := by
  refine ⟨?_, ?_, ?_, ?_, ?_, ?_, ?_⟩
  · intro h
    simp [CacheManager.get, h]
  · intro h
    simp [CacheManager.get, h]
  · intro h
    simp [CacheManager.get, h]
  · intro v ts h hts hstale
    simp [CacheManager.get, h, hts, hstale]
  · intro h
    simp [CacheManager.clean_expired, h]
  · cases dirExists with
    | false => simp [CacheManager.clean_expired]
    | true =>
      simp only [CacheManager.clean_expired, Bool.not_true, Bool.false_eq_true,
        if_false, foldl_cleanStep]
      simp
  · intro fn fd hmem hdir hjson htmp hdel
    subst hdir
    have hsd : shouldDelete ttl now fn fd = true := by
      unfold shouldDelete
      rcases hdel with rfl | ⟨v, ts, rfl, hts, hstale⟩
      · simp [hjson, htmp]
      · simp [hjson, htmp, hts, hstale]
    simp only [CacheManager.clean_expired, Bool.not_true, Bool.false_eq_true,
      if_false, foldl_cleanStep, List.nil_append]
    exact List.mem_filterMap.mpr ⟨(fn, fd), hmem, by simp [hsd]⟩

/-- The cache-directory listing used to witness C7: a corrupt entry, a
stale entry, a fresh entry and a stray non-JSON file. -/
def filesC7 : List (String × FileData) :=
  [("a.json", FileData.corrupt),
   ("b.json", FileData.json (PyVal.dict [("timestamp", PyVal.int 0),
      ("result", PyVal.dict [("ip", PyVal.str "1.2.3.4")])])),
   ("c.json", FileData.json (PyVal.dict [("timestamp", PyVal.int 95),
      ("result", PyVal.dict [("ip", PyVal.str "5.6.7.8")])])),
   ("notes.txt", FileData.corrupt)]

/-- Witness for C7: a missing file reads as absent; a missing directory
cleans to `(0, [])`; on `filesC7` (ttl 10, now 100) the count equals the
deletions and both the corrupt and the stale entry are deleted. -/
theorem claim_C7_cache_get_clean_witness :
    CacheManager.get (fun _ => Option.none) "cache" 10 100 "1.2.3.4" "auto" =
      Option.none ∧
    CacheManager.clean_expired false filesC7 10 100 = (0, []) ∧
    (CacheManager.clean_expired true filesC7 10 100).1 =
      (CacheManager.clean_expired true filesC7 10 100).2.length ∧
    "a.json" ∈ (CacheManager.clean_expired true filesC7 10 100).2 ∧
    "b.json" ∈ (CacheManager.clean_expired true filesC7 10 100).2 := by
  obtain ⟨hmiss, _, _, _, hnodir, _, _⟩ :=
    claim_C7_cache_get_clean (fun _ => Option.none) "cache" "1.2.3.4" "auto" 10 100
      false filesC7
  obtain ⟨_, _, _, _, _, hcount, hdel⟩ :=
    claim_C7_cache_get_clean (fun _ => Option.none) "cache" "1.2.3.4" "auto" 10 100
      true filesC7
  refine ⟨hmiss rfl, hnodir rfl, hcount, ?_, ?_⟩
  · exact hdel "a.json" FileData.corrupt (by simp [filesC7]) rfl (by decide) (by decide)
      (Or.inl rfl)
  · exact hdel "b.json" (FileData.json (PyVal.dict [("timestamp", PyVal.int 0),
      ("result", PyVal.dict [("ip", PyVal.str "1.2.3.4")])]))
      (by simp [filesC7]) rfl (by decide) (by decide)
      (Or.inr ⟨_, 0, rfl, rfl, by decide⟩)

/-- **C6, counterexample.** `set` refuses only `None`: an empty-but-present
record is accepted — it returns `true` and performs the two writes,
refuting the claim that an empty record is refused. -/
theorem claim_C6_counterexample :
    (CacheManager.set "cache" "1.2.3.4" "auto" (some []) true true).1 = true ∧
    (CacheManager.set "cache" "1.2.3.4" "auto" (some []) true true).2 ≠ [] := by
  refine ⟨rfl, ?_⟩
  intro h
  simp [CacheManager.set] at h

/-- **C6, amended.** `set` refuses an absent (`None`) record, returning
`false` with no write; an empty-but-present record is stored like any
other.  Accepted records are written to `cache_file + ".tmp"` first and
then atomically renamed onto `cache_file`; any I/O failure makes `set`
return `false` instead of raising; and no write ever targets `cache_file`
directly. -/
theorem claim_C6_amended_set (cache_dir ip method : String) (record : Option PyDict)
    (writeOk renameOk : Bool) :
    (record = Option.none →
      CacheManager.set cache_dir ip method record writeOk renameOk = (false, [])) ∧
    ((writeOk = false ∨ renameOk = false) →
      (CacheManager.set cache_dir ip method record writeOk renameOk).1 = false) ∧
    (∀ r, record = some r → writeOk = true → renameOk = true →
      CacheManager.set cache_dir ip method record writeOk renameOk =
        (true, [FsWrite.writeTemp (_get_cache_path cache_dir ip method ++ ".tmp"),
                FsWrite.rename (_get_cache_path cache_dir ip method ++ ".tmp")
                  (_get_cache_path cache_dir ip method)])) ∧
    (∀ w ∈ (CacheManager.set cache_dir ip method record writeOk renameOk).2,
      w = FsWrite.writeTemp (_get_cache_path cache_dir ip method ++ ".tmp") ∨
      w = FsWrite.rename (_get_cache_path cache_dir ip method ++ ".tmp")
            (_get_cache_path cache_dir ip method)) := by
  refine ⟨?_, ?_, ?_, ?_⟩
  · intro h
    simp [CacheManager.set, h]
  · intro h
    cases record with
    | none => simp [CacheManager.set]
    | some r =>
      rcases h with rfl | rfl
      · simp [CacheManager.set]
      · cases writeOk <;> simp [CacheManager.set]
  · intro r hrec hw hr
    subst hrec
    subst hw
    subst hr
    simp [CacheManager.set]
  · intro w hw
    cases record with
    | none => simp [CacheManager.set] at hw
    | some r =>
      cases writeOk with
      | false => simp [CacheManager.set] at hw
      | true =>
        cases renameOk with
        | false =>
          simp [CacheManager.set] at hw
          exact Or.inl hw
        | true =>
          simp [CacheManager.set] at hw
          rcases hw with rfl | rfl
          · exact Or.inl rfl
          · exact Or.inr rfl

/-- Witness for the amended C6 at a concrete record and oracles. -/
theorem claim_C6_amended_set_witness :
    CacheManager.set "cache" "1.2.3.4" "auto"
        (some [("ip", PyVal.str "1.2.3.4")]) true true =
      (true, [FsWrite.writeTemp (_get_cache_path "cache" "1.2.3.4" "auto" ++ ".tmp"),
              FsWrite.rename (_get_cache_path "cache" "1.2.3.4" "auto" ++ ".tmp")
                (_get_cache_path "cache" "1.2.3.4" "auto")]) ∧
    (CacheManager.set "cache" "1.2.3.4" "auto"
        (some [("ip", PyVal.str "1.2.3.4")]) false true).1 = false :=
  ⟨(claim_C6_amended_set "cache" "1.2.3.4" "auto"
      (some [("ip", PyVal.str "1.2.3.4")]) true true).2.2.1
      [("ip", PyVal.str "1.2.3.4")] rfl rfl rfl,
   (claim_C6_amended_set "cache" "1.2.3.4" "auto"
      (some [("ip", PyVal.str "1.2.3.4")]) false true).2.1 (Or.inl rfl)⟩

end WhoisTool
